import Mathlib

/-!
Verification development for a symbolic-differentiation program consisting of
four Python modules: `base.py` (number/variable primitives and the abstract
expression interface), `expressions.py` (unary/binary expression nodes with
differentiation and simplification), `input_parser.py` (lexer and two-stack
precedence-climbing parser) and `differentiate.py` (CLI wrapper, out of scope).

The embedding models exact-decimal numbers (`decimal.Decimal`) as rationals
`ℚ`.  Arithmetic on `Decimal` is exact for addition, subtraction and
multiplication (up to the 28-significant-digit context, which is idealized away
here); division and exponentiation with integral exponents are modelled
exactly, while the genuinely transcendental operations (natural logarithm,
`log10(e)`, and powers with fractional exponents) are parameters of the
development (structure `DecOps`), since their concrete rounded values never
matter for the properties proved below.  Python exceptions are modelled with
`Except`:
  * `decimal.InvalidOperation`  ↦ `Err.invalidOperation`
  * `decimal.DivisionByZero` and the explicit
    `ValueError("Division by Zero")` ↦ `Err.divisionByZero`
  * `NotImplementedError` (variable base and exponent) ↦
    `Err.unsupportedExpression`
  * `BadInput` (lexer and parser errors) ↦ `Err.badInput`
  * `ValueError`/`KeyError` for operators outside the fixed operator lists ↦
    `Err.invalidOperator`
  * `IndexError`/`AssertionError` on the parser's internal stacks ↦
    `Err.internalError` (unreachable in normal operation)
  * `Err.outOfFuel` is an artefact of the fuelled parser model; the top-level
    `parse` supplies enough fuel that it never occurs.
-/

namespace Diff

/-- Python exceptions raised by the program, see the module docstring. -/
inductive Err where
  | invalidOperation
  | divisionByZero
  | unsupportedExpression
  | badInput
  | invalidOperator
  | internalError
  | outOfFuel
deriving DecidableEq, Repr

/-- Interpretation of the transcendental `Decimal` operations.  `ln` is the
value of `Decimal.ln` on positive inputs, `log10e` the constant
`Globals.e.log10()`, and `powFrac` the value of `Decimal.__pow__` for a
positive base and a non-integral exponent.  The claims proved below hold for
every interpretation. -/
structure DecOps where
  ln : ℚ → ℚ
  log10e : ℚ
  powFrac : ℚ → ℚ → ℚ

/-- A fixed interpretation used only to evaluate theorems on concrete inputs
whose computation never reaches a transcendental operation. -/
def defaultOps : DecOps := { ln := fun _ => 0, log10e := 0, powFrac := fun _ _ => 0 }

/-- The expression AST: `Const`, `Var`, `UnaryExpression`, `BinaryExpression`
(`base.py` and `expressions.py`).  Field order follows the constructors:
`BinaryExpression(left, operator, right)`, `UnaryExpression(operator, operand)`. -/
inductive Expr where
  | const (value : ℚ)
  | var (identifier : String)
  | unary (operator : String) (operand : Expr)
  | binary (left : Expr) (operator : String) (right : Expr)
deriving DecidableEq, Repr

/-- Model of `Globals.unary_operators` (base.py line 13). -/
def unaryOperators : List String :=
  ["-", "sqrt", "log", "log10", "exp", "sin", "cos", "tan", "sec", "cosec", "cot"]

/-- Model of `Globals.binary_operators` (base.py line 14). -/
def binaryOperators : List String := ["+", "-", "*", "/", "^"]

/-- Model of `Globals.named_consts` (base.py line 10). -/
def namedConsts : List String := ["e", "pi"]

/-!
Rational arithmetic, written against `mkRat` so that every operation
evaluates by kernel reduction (the library's `Rat.add` etc. are sealed).
These agree with the field operations of `ℚ` and model `Decimal`'s exact
arithmetic.
-/

/-- Rational addition. -/
def addQ (a b : ℚ) : ℚ := mkRat (a.num * b.den + b.num * a.den) (a.den * b.den)

/-- Rational subtraction. -/
def subQ (a b : ℚ) : ℚ := mkRat (a.num * b.den - b.num * a.den) (a.den * b.den)

/-- Rational multiplication. -/
def mulQ (a b : ℚ) : ℚ := mkRat (a.num * b.num) (a.den * b.den)

/-- Rational reciprocal (of a nonzero input). -/
def invQ (a : ℚ) : ℚ :=
  if a.num < 0 then mkRat (-(a.den : ℤ)) a.num.natAbs else mkRat a.den a.num.natAbs

/-- Rational division (by a nonzero divisor). -/
def divQ (a b : ℚ) : ℚ := mulQ a (invQ b)

/-- Rational power with a natural exponent. -/
def npowQ (a : ℚ) : ℕ → ℚ
  | 0 => 1
  | n + 1 => mulQ (npowQ a n) a

/-- Rational power with an integer exponent. -/
def zpowQ (a : ℚ) (k : ℤ) : ℚ :=
  if 0 ≤ k then npowQ a k.toNat else invQ (npowQ a (-k).toNat)

/-- Model of `Globals.e = Decimal((0, (2,7,1,8,2,8,1,8), -7))`, i.e. 2.7182818. -/
def eVal : ℚ := mkRat 27182818 10000000

/-- Model of `Globals.pi = Decimal((0, (3,1,4,1,5,9,2,6), -7))`, i.e. 3.1415926. -/
def piVal : ℚ := mkRat 31415926 10000000

/-- Model of `Const.__truediv__`: `Decimal` division.  `0/0` signals
`InvalidOperation`, any other division by zero signals `DivisionByZero`;
otherwise the quotient (exact here, rounded to 28 digits by `Decimal`). -/
def divD (a b : ℚ) : Except Err ℚ :=
  if b = 0 then
    if a = 0 then .error .invalidOperation else .error .divisionByZero
  else .ok (divQ a b)

/-- Model of `Const.__pow__`: `Decimal` exponentiation.  `0 ** 0` signals
`InvalidOperation`, `0 ** negative` signals `DivisionByZero`, a negative base
with a non-integral exponent signals `InvalidOperation`; integral exponents
are computed exactly, fractional powers of a positive base take the
interpretation `ops.powFrac`. -/
def powD (ops : DecOps) (a b : ℚ) : Except Err ℚ :=
  if b.den = 1 then
    if a = 0 then
      if b.num = 0 then .error .invalidOperation
      else if b.num < 0 then .error .divisionByZero
      else .ok 0
    else .ok (zpowQ a b.num)
  else
    if a.num < 0 then .error .invalidOperation
    else if a = 0 then .ok 0
    else .ok (ops.powFrac a b)

/-- Model of `Const.ln`: `Decimal.ln` signals `DivisionByZero` at 0 and
`InvalidOperation` for negative input; positive input takes the
interpretation `ops.ln`. -/
def lnD (ops : DecOps) (a : ℚ) : Except Err ℚ :=
  if a = 0 then .error .divisionByZero
  else if a.num < 0 then .error .invalidOperation
  else .ok (ops.ln a)

/-- The constant-folding dispatch in `BinaryExpression.simplify` (expressions.py
lines 121-128): both operands constant, combine with the `Const` arithmetic.
An operator outside the dict would raise `KeyError`. -/
def foldConst (ops : DecOps) (a : ℚ) (op : String) (b : ℚ) : Except Err ℚ :=
  if op = "+" then .ok (addQ a b)
  else if op = "-" then .ok (subQ a b)
  else if op = "*" then .ok (mulQ a b)
  else if op = "/" then divD a b
  else if op = "^" then powD ops a b
  else .error .invalidOperator

/-- The rewrite-rule chain of `BinaryExpression.simplify` (expressions.py
lines 129-166), reached when the operands are not both constants.  `sr` is
the result of simplifying the right operand, used by the rule `0 - x = -x`,
which calls the `UnaryExpression` constructor (and that constructor
simplifies its operand).  Rules are checked in source order; no match returns
the node unchanged. -/
def simplifyRules (l : Expr) (op : String) (r : Expr) (sr : Except Err Expr) :
    Except Err Expr :=
  if op = "+" then
    if l = .const 0 then .ok r
    else if r = .const 0 then .ok l
    else .ok (.binary l op r)
  else if op = "-" then
    if l = .const 0 then sr.map (.unary "-")
    else if r = .const 0 then .ok l
    else .ok (.binary l op r)
  else if op = "*" then
    if l = .const 0 ∨ r = .const 0 then .ok (.const 0)
    else if l = .const 1 then .ok r
    else if r = .const 1 then .ok l
    else .ok (.binary l op r)
  else if op = "/" then
    if r = .const 0 then .error .divisionByZero
    else if l = .const 0 then .ok (.const 0)
    else if r = .const 1 then .ok l
    else .ok (.binary l op r)
  else if op = "^" then
    if r = .const 0 then .ok (.const 1)
    else if r = .const 1 then .ok l
    else .ok (.binary l op r)
  else .ok (.binary l op r)

/-- Model of `simplify` (expressions.py lines 118-166 for `BinaryExpression`; `Const`,
`Var` and `UnaryExpression` return `self`).  The method is shallow: children
are not revisited, except that the rule `0 - x = -x` calls the
`UnaryExpression` constructor, which simplifies its operand. -/
def simplify (ops : DecOps) : Expr → Except Err Expr
  | .const q => .ok (.const q)
  | .var n => .ok (.var n)
  | .unary op u => .ok (.unary op u)
  | .binary l op r =>
    match l, r with
    | .const a, .const b => (foldConst ops a op b).map .const
    | l, r => simplifyRules l op r (simplify ops r)

/-- Model of `UnaryExpression.__init__` (expressions.py lines 9-13): simplify the
operand, then validate the operator. -/
def mkUnary (ops : DecOps) (op : String) (operand : Expr) : Except Err Expr := do
  let u ← simplify ops operand
  if op ∈ unaryOperators then .ok (.unary op u) else .error .invalidOperator

/-- Model of `BinaryExpression.__init__` (expressions.py lines 64-69): simplify both
children, then validate the operator.  The node itself is not simplified. -/
def mkBinary (ops : DecOps) (l : Expr) (op : String) (r : Expr) : Except Err Expr := do
  let l' ← simplify ops l
  let r' ← simplify ops r
  if op ∈ binaryOperators then .ok (.binary l' op r') else .error .invalidOperator

/-- Model of `Parser.make_unary_expression` (input_parser.py lines 210-212):
construct and then explicitly simplify. -/
def makeUnaryExpression (ops : DecOps) (op : String) (operand : Expr) : Except Err Expr := do
  let e ← mkUnary ops op operand
  simplify ops e

/-- Model of `Parser.make_binary_expression` (input_parser.py lines 214-217):
construct and then explicitly simplify. -/
def makeBinaryExpression (ops : DecOps) (l : Expr) (op : String) (r : Expr) : Except Err Expr := do
  let e ← mkBinary ops l op r
  simplify ops e

/-- The per-operator derivative-factor table of `UnaryExpression.dx`
(expressions.py lines 30-55), as a function of the operator and the operand;
`self` denotes the node `unary op u`.  An operator outside the dict raises
`KeyError`. -/
def dxFactor (ops : DecOps) (op : String) (u : Expr) : Except Err Expr :=
  if op = "-" then .ok (.const (-1))
  else if op = "sqrt" then mkBinary ops (.const (mkRat 1 2)) "/" (.unary "sqrt" u)
  else if op = "log" then mkBinary ops (.const 1) "/" u
  else if op = "log10" then mkBinary ops (.const ops.log10e) "/" u
  else if op = "exp" then .ok (.unary "exp" u)
  else if op = "sin" then mkUnary ops "cos" u
  else if op = "cos" then do
    let s ← mkUnary ops "sin" u
    mkUnary ops "-" s
  else if op = "tan" then do
    let s ← mkUnary ops "sec" u
    mkBinary ops s "^" (.const 2)
  else if op = "sec" then do
    let t ← mkUnary ops "tan" u
    mkBinary ops (.unary "sec" u) "*" t
  else if op = "cosec" then do
    let c ← mkUnary ops "cot" u
    let b ← mkBinary ops (.unary "cosec" u) "*" c
    mkUnary ops "-" b
  else if op = "cot" then do
    let c ← mkUnary ops "cosec" u
    let b ← mkBinary ops c "^" (.const 2)
    mkUnary ops "-" b
  else .error .invalidOperator

/-- Model of `dx` (base.py lines 79-80 and 98-102, expressions.py lines 29-57 and
89-116).  Sub-computations appear in Python's left-to-right evaluation order,
so the error raised first is the error produced here. -/
def dx (ops : DecOps) : Expr → String → Except Err Expr
  | .const _, _ => .ok (.const 0)
  | .var n, wrt => .ok (if n = wrt then .const 1 else .const 0)
  | .unary op u, wrt => do
    let f ← dxFactor ops op u
    let du ← dx ops u wrt
    let m ← mkBinary ops f "*" du
    simplify ops m
  | .binary l op r, wrt =>
    if op = "^" then
      match r with
      | .const c => do
        let e1 ← mkBinary ops (.const c) "-" (.const 1)
        let e2 ← mkBinary ops l "^" e1
        let m ← mkBinary ops (.const c) "*" e2
        simplify ops m
      | _ =>
        match l with
        | .const a => do
          let v ← lnD ops a
          let m ← mkBinary ops (.const v) "*" (.binary l "^" r)
          simplify ops m
        | _ => .error .unsupportedExpression
    else if op = "+" then do
      let dl ← dx ops l wrt
      let dr ← dx ops r wrt
      let m ← mkBinary ops dl "+" dr
      simplify ops m
    else if op = "-" then do
      let dl ← dx ops l wrt
      let dr ← dx ops r wrt
      let m ← mkBinary ops dl "-" dr
      simplify ops m
    else if op = "*" then do
      let dr ← dx ops r wrt
      let i1 ← mkBinary ops l "*" dr
      let dl ← dx ops l wrt
      let i2 ← mkBinary ops r "*" dl
      let m ← mkBinary ops i1 "+" i2
      simplify ops m
    else if op = "/" then do
      let dl ← dx ops l wrt
      let a ← mkBinary ops r "*" dl
      let dr ← dx ops r wrt
      let b ← mkBinary ops l "*" dr
      let n ← mkBinary ops a "-" b
      let d ← mkBinary ops r "^" (.const 2)
      let m ← mkBinary ops n "/" d
      simplify ops m
    else .error .invalidOperator

/-- Model of `isinstance(e, Const)`. -/
def isConst : Expr → Bool
  | .const _ => true
  | _ => false

/-! ## Lexer (`input_parser.py`) -/

/-- ASCII decimal digit. -/
def isDigitC (c : Char) : Bool := '0' ≤ c && c ≤ '9'

/-- Whitespace as skipped by `Lexer.peek` (`str.isspace` on the inputs in
scope). -/
def isSpaceC (c : Char) : Bool := c = ' ' || c = '\t' || c = '\n' || c = '\r'

/-- The whitespace skipping of `Lexer.peek` (lines 111-113), which advances
`current_index` past any run of whitespace. -/
def skipWs : List Char → List Char
  | [] => []
  | c :: rest => if isSpaceC c then skipWs rest else c :: rest

/-- Python's `$` in `re.match` on the remaining slice: end of string, or a
single trailing newline. -/
def dollarEnd (cs : List Char) : Bool := cs = [] || cs = ['\n']

/-- One or more `'0'` characters followed by `$` (the `0+$` tail of the
negative-zero lookahead). -/
def zeros1 : List Char → Bool
  | '0' :: rest => dollarEnd rest || zeros1 rest
  | _ => false

/-- Model of `(\.0+)$`: a dot, one or more zeros, then `$`. -/
def fracZeros : List Char → Bool
  | '.' :: rest => zeros1 rest
  | _ => false

/-- The negative lookahead `(?!-0?(\.0+)?$)` of `Lexer._num_pattern`
(input_parser.py line 93): the remaining input is a bare negative-zero form
`-`, `-0`, `-.0…0` or `-0.0…0` reaching the end of the string. -/
def negZeroReject : List Char → Bool
  | [] => false
  | c :: rest =>
    c = '-' &&
      (dollarEnd rest || fracZeros rest ||
        (match rest with
         | '0' :: rest2 => dollarEnd rest2 || fracZeros rest2
         | _ => false))

/-- The body `-?(0|[1-9]\d*)?(\.\d+)?(?<=\d)` of `Lexer._num_pattern` under
`re.match` semantics: optional sign, optional integer part (a lone `0`, or a
nonzero-led digit run, greedy), optional fractional part (dot plus a greedy
digit run), and the lookbehind requires the match to end in a digit, so the
match fails when both numeric parts are empty.  Together with the lookahead
`negZeroReject` this is the whole pattern; returns the matched lexeme. -/
def matchNum (cs : List Char) : Option (List Char) :=
  if negZeroReject cs then none
  else
    let (sgn, cs₁) := match cs with
      | '-' :: r => (['-'], r)
      | _ => (([] : List Char), cs)
    let (ip, cs₂) := match cs₁ with
      | '0' :: r => (['0'], r)
      | c :: r =>
        if isDigitC c then
          let (ds, rest) := List.span isDigitC r
          (c :: ds, rest)
        else (([] : List Char), cs₁)
      | [] => (([] : List Char), cs₁)
    let fp := match cs₂ with
      | '.' :: r =>
        let ds := List.takeWhile isDigitC r
        if ds = [] then ([] : List Char) else '.' :: ds
      | _ => ([] : List Char)
    if ip = [] && fp = [] then none else some (sgn ++ ip ++ fp)

/-- Model of `Lexer.peek` (input_parser.py lines 106-142): end-of-input sentinel,
whitespace skip, numeric literal, parenthesis, operator names in
`chain(unary_operators, binary_operators)` order with first match winning,
the (dead) `**` remapping, named constants, variables; otherwise `BadInput`.
Returns the token's string value. -/
def lexPeek (cs : List Char) : Except Err String :=
  let cs := skipWs cs
  match cs with
  | [] => .ok ""
  | c :: _ =>
    match matchNum cs with
    | some lexeme => .ok (String.mk lexeme)
    | none =>
      if c = '(' || c = ')' then .ok (String.mk [c])
      else
        match (unaryOperators ++ binaryOperators).find?
            (fun op => List.isPrefixOf op.data cs) with
        | some op => .ok op
        | none =>
          if List.isPrefixOf ['*', '*'] cs then .ok "^"
          else
            match namedConsts.find? (fun k => List.isPrefixOf k.data cs) with
            | some k => .ok k
            | none =>
              if c = 'x' || c = 'y' || c = 'z' then .ok (String.mk [c])
              else .error .badInput

/-- Model of `Lexer.consume` (lines 99-104): the remaining input after peeking a token
and advancing past it (whitespace was consumed by the peek itself). -/
def lexRest (cs : List Char) (tok : String) : List Char :=
  (skipWs cs).drop tok.length

/-- Digit list to natural number. -/
def natOfDigits (ds : List Char) : ℕ :=
  ds.foldl (fun a c => 10 * a + (c.toNat - 48)) 0

/-- Model of `Decimal(value)` on a token string (`Token.is_const`, lines 67-78, and the
`Const` constructor): an optional sign, digits, an optional dot and more
digits, with at least one digit overall.  Exotic inputs `Decimal` would also
accept (exponents, `Infinity`, underscores) cannot occur as lexer tokens and
are not modelled.  Returns the exact value. -/
def parseDecLit (v : String) : Option ℚ :=
  let cs := v.data
  let (neg, cs₁) := match cs with
    | '-' :: r => (true, r)
    | '+' :: r => (false, r)
    | _ => (false, cs)
  let (ip, cs₂) := List.span isDigitC cs₁
  let core : Option ℚ :=
    match cs₂ with
    | [] => if ip = [] then none else some ((natOfDigits ip : ℚ))
    | '.' :: r =>
      let (fp, rest) := List.span isDigitC r
      if rest = [] && !(ip = [] && fp = []) then
        some (addQ (natOfDigits ip : ℚ) (divQ (natOfDigits fp : ℚ) (npowQ 10 fp.length)))
      else none
    | _ => none
  core.map (fun q => if neg then -q else q)

/-- Model of `Token.is_const` (lines 67-78): a named constant, or a string `Decimal`
accepts. -/
def isConstTok (v : String) : Bool := v ∈ namedConsts || (parseDecLit v).isSome

/-- Contiguous-substring test, i.e. Python's `needle in haystack` on
strings. -/
def substrOf : List Char → List Char → Bool
  | n, [] => n.isEmpty
  | n, c :: rest => List.isPrefixOf n (c :: rest) || substrOf n rest

/-- Model of `Token.is_var` (lines 80-85): Python's substring test `value in 'xyz'`,
true also for the empty token. -/
def isVarTok (v : String) : Bool := substrOf v.data "xyz".data

/-- Model of `Token.is_terminal` (lines 87-88). -/
def isTerminalTok (v : String) : Bool := isConstTok v || isVarTok v

/-- Model of `Token.is_binary_operator` (lines 61-62). -/
def isBinTok (v : String) : Bool := v ∈ binaryOperators

/-- Model of `Token.is_unary_operator` (lines 64-65). -/
def isUnTok (v : String) : Bool := v ∈ unaryOperators

/-- Value of a named constant (`Const.__init__`, base.py lines 41-44). -/
def namedVal (v : String) : ℚ := if v = "e" then eVal else if v = "pi" then piVal else 0

/-- Model of `Parser.make_terminal` (input_parser.py lines 201-208): constants before
variables, otherwise `BadInput`. -/
def makeTerminal (tok : String) : Except Err Expr :=
  if tok ∈ namedConsts then .ok (.const (namedVal tok))
  else
    match parseDecLit tok with
    | some q => .ok (.const q)
    | none => if isVarTok tok then .ok (.var tok) else .error .badInput

/-! ## Operator stack and parser (`input_parser.py`) -/

/-- Operator-stack entries: the `BaseOperator` sentinel, `UnaryOperator` and
`BinaryOperator` markers. -/
inductive OpE where
  | sentinel
  | unaryOp (op : String)
  | binaryOp (op : String)
deriving DecidableEq, Repr

/-- The precedence dict of `BaseOperator.__gt__` (line 156).  The parser only
looks up operators validated against `Globals.binary_operators`, so the
`KeyError` default is unreachable. -/
def precedence (op : String) : ℕ :=
  if op = "^" then 3
  else if op = "*" then 2
  else if op = "/" then 2
  else if op = "+" then 1
  else if op = "-" then 1
  else 0

/-- Model of `BaseOperator.__gt__` (lines 153-168): binary vs binary compares
precedence with `>=`; unary outranks binary; nothing outranks a unary; the
sentinel outranks nothing.  The final case (binary vs sentinel) raises
`ValueError` in the source and is never reached by the parser, which always
compares against a freshly pushed unary/binary operator on the right. -/
def gtOp : OpE → OpE → Bool
  | .binaryOp a, .binaryOp b => precedence b ≤ precedence a
  | .unaryOp _, .binaryOp _ => true
  | _, .unaryOp _ => false
  | .sentinel, _ => false
  | .binaryOp _, .sentinel => false
  | .unaryOp _, .sentinel => false

/-- Model of `Parser.push_operator` (lines 234-237) with `Parser.pop_operator`
(lines 219-232) inlined for the loop: while the stack top outranks the new
operator, pop it and reduce; an empty stack or operand underflow would be an
`IndexError`, and popping the sentinel a `ValueError`. -/
def pushOp (ops : DecOps) (new : OpE) :
    List OpE → List Expr → Except Err (List OpE × List Expr)
  | [], _ => .error .internalError
  | top :: rest, ands =>
    if gtOp top new then
      match top, ands with
      | .binaryOp op, b :: a :: ands' => do
        let e ← makeBinaryExpression ops a op b
        pushOp ops new rest (e :: ands')
      | .unaryOp op, a :: ands' => do
        let e ← makeUnaryExpression ops op a
        pushOp ops new rest (e :: ands')
      | _, _ => .error .internalError
    else .ok (new :: top :: rest, ands)

/-- The reduction loop ending `Parser.parse_e` (lines 246-247): pop and reduce
until the top of the operator stack is the sentinel. -/
def popToSentinel (ops : DecOps) :
    List OpE → List Expr → Except Err (List OpE × List Expr)
  | .sentinel :: rest, ands => .ok (.sentinel :: rest, ands)
  | .binaryOp op :: rest, b :: a :: ands' => do
    let e ← makeBinaryExpression ops a op b
    popToSentinel ops rest (e :: ands')
  | .unaryOp op :: rest, a :: ands' => do
    let e ← makeUnaryExpression ops op a
    popToSentinel ops rest (e :: ands')
  | _, _ => .error .internalError

mutual

/-- Model of `Parser.parse_p` (lines 249-267): terminal, parenthesized expression, or
unary operator; otherwise `BadInput`.  State is (remaining input, operator
stack, operand stack); the fuel is a termination artefact. -/
def parseP (ops : DecOps) :
    ℕ → List Char → List OpE → List Expr → Except Err (List Char × List OpE × List Expr)
  | 0, _, _, _ => .error .outOfFuel
  | fuel + 1, cs, opsk, ands => do
    let t ← lexPeek cs
    if isTerminalTok t then do
      let e ← makeTerminal t
      .ok (lexRest cs t, opsk, e :: ands)
    else if t = "(" then do
      let (cs₁, opsk₁, ands₁) ← parseE ops fuel (lexRest cs t) (.sentinel :: opsk) ands
      let t₁ ← lexPeek cs₁
      if t₁ = ")" then
        match opsk₁ with
        | _ :: rest => .ok (lexRest cs₁ t₁, rest, ands₁)
        | [] => .error .internalError
      else .error .badInput
    else if isUnTok t then do
      let (opsk₁, ands₁) ← pushOp ops (.unaryOp t) opsk ands
      parseP ops fuel (lexRest cs t) opsk₁ ands₁
    else .error .badInput

/-- Model of `Parser.parse_e` (lines 239-247): parse a `P`, then the binary-operator
loop, then reduce to the sentinel. -/
def parseE (ops : DecOps) :
    ℕ → List Char → List OpE → List Expr → Except Err (List Char × List OpE × List Expr)
  | 0, _, _, _ => .error .outOfFuel
  | fuel + 1, cs, opsk, ands => do
    let (cs₁, opsk₁, ands₁) ← parseP ops fuel cs opsk ands
    parseELoop ops fuel cs₁ opsk₁ ands₁

/-- The `while`-loop of `Parser.parse_e` (lines 242-244) followed by the final
reduction (lines 246-247). -/
def parseELoop (ops : DecOps) :
    ℕ → List Char → List OpE → List Expr → Except Err (List Char × List OpE × List Expr)
  | 0, _, _, _ => .error .outOfFuel
  | fuel + 1, cs, opsk, ands => do
    let t ← lexPeek cs
    if isBinTok t then do
      let (opsk₁, ands₁) ← pushOp ops (.binaryOp t) opsk ands
      let (cs₂, opsk₂, ands₂) ← parseP ops fuel (lexRest cs t) opsk₁ ands₁
      parseELoop ops fuel cs₂ opsk₂ ands₂
    else do
      let (opsk₁, ands₁) ← popToSentinel ops opsk ands
      .ok (cs, opsk₁, ands₁)

end

/-- Model of `Parser.parse` (lines 269-275): push the sentinel, parse an `E`, expect
the empty end-of-input token, and return the single remaining operand (any
other residue is the source's `assert`).  The fuel `2·|s| + 4` exceeds the
recursion depth of the source's parser on any input. -/
def parse (ops : DecOps) (s : String) : Except Err Expr := do
  let cs := s.data
  let (cs₁, _, ands) ← parseE ops (2 * cs.length + 4) cs [.sentinel] []
  let t ← lexPeek cs₁
  if t = "" then
    match ands with
    | [e] => .ok e
    | _ => .error .internalError
  else .error .badInput

/-! ## Rendering (`__str__`) -/

/-- Model of `str(Decimal)` on the values reachable in this model: named constants
render as their name (`Const.__str__`, base.py lines 54-58); otherwise sign,
integer digits, and a fractional part when the denominator divides a power of
ten.  `Decimal` values always have such a denominator; the `"?"` branch is
unreachable for them.  Exponent notation and the trailing-zero bookkeeping of
`Decimal` (which never affect structural equality, as `Const.__eq__` compares
numeric values) are normalized away. -/
def renderDec (q : ℚ) : String :=
  if q = eVal then "e"
  else if q = piVal then "pi"
  else
    let sgn := if q.num < 0 then "-" else ""
    let n := q.num.natAbs
    let d := q.den
    if d = 1 then sgn ++ toString n
    else
      match (List.range (d + 1)).find? (fun k => d ∣ 10 ^ k) with
      | some k =>
        let c := n * 10 ^ k / d
        let fracStr := toString (c % 10 ^ k)
        let pad := String.mk (List.replicate (k - fracStr.length) '0')
        sgn ++ toString (c / 10 ^ k) ++ "." ++ pad ++ fracStr
      | none => "?"

/-- Model of `__str__` (base.py lines 54-58 and 95-96, expressions.py lines 23-27 and
86-87): `Const` and `Var` render bare, unary minus as `(-operand)`, other
unary operators as `name(operand)`, binary nodes as `(left op right)` with no
spaces. -/
def render : Expr → String
  | .const q => renderDec q
  | .var n => n
  | .unary op u => if op = "-" then "(-" ++ render u ++ ")" else op ++ "(" ++ render u ++ ")"
  | .binary l op r => "(" ++ render l ++ op ++ render r ++ ")"

/-! ## Theorems -/

/-- C3.  The claim states the lexer uses a longest-match policy so that
`cosec(x)` lexes to the token `cosec` and `log10(x)` to `log10`.  In the code
the operator loop (input_parser.py lines 124-127) returns the FIRST operator
of `chain(unary_operators, binary_operators)` that is a literal prefix of the
remaining input, and `cos` precedes `cosec` (and `log` precedes `log10`) in
`Globals.unary_operators`; so `cosec(x)` lexes to `cos` and `log10(x)` to
`log`, making both longer operator names unreachable, and parsing either
input fails with `BadInput` — although the CLI advertises both functions. -/
theorem c3_lexer_first_match_shadows_longer_names (ops : DecOps) :
    lexPeek "cosec(x)".data = .ok "cos" ∧
    lexPeek "log10(x)".data = .ok "log" ∧
    parse ops "cosec(x)" = .error .badInput ∧
    parse ops "log10(x)" = .error .badInput :=
  ⟨rfl, rfl, rfl, rfl⟩

/-- C4.  The claim states `**` lexes to the single token `^`.  In the code
the `**`-to-`^` remapping (input_parser.py lines 129-131) sits AFTER the
operator loop, and `*` ∈ `Globals.binary_operators` is a literal prefix of
`**`, so the loop returns `*` first and the remapping is dead code: `**`
lexes to `*`, `x ** 2` fails with `BadInput` (at the second `*`), while
`x ^ 2` parses. -/
theorem c4_star_star_lexes_to_star_not_caret (ops : DecOps) :
    lexPeek "**".data = .ok "*" ∧
    lexPeek "** 2".data = .ok "*" ∧
    parse ops "x ** 2" = .error .badInput ∧
    parse ops "x ^ 2" = .ok (.binary (.var "x") "^" (.const 2)) :=
  ⟨rfl, rfl, rfl, rfl⟩

/-- C8.  The parser's outranking relation compares two binary operators by
numeric precedence (`^` = 3, `*`/`/` = 2, `+`/`-` = 1) with `>=`, so equal
precedence outranks and every binary operator, `^` included, groups
left-associatively: `2 ^ 3 ^ 2` parses (and constant-folds) as
`(2^3)^2 = 64`, not `2^(3^2) = 512`. -/
theorem c8_ge_precedence_left_assoc_pow (ops : DecOps) :
    (∀ a b : String,
      gtOp (.binaryOp a) (.binaryOp b) = decide (precedence b ≤ precedence a)) ∧
    gtOp (.binaryOp "^") (.binaryOp "^") = true ∧
    parse ops "2 ^ 3 ^ 2" = .ok (.const 64) ∧
    parse ops "2 ^ 3 ^ 2" ≠ .ok (.const 512) := by
  refine ⟨fun a b => rfl, rfl, rfl, ?_⟩
  intro h
  rw [show parse ops "2 ^ 3 ^ 2" = .ok (.const 64) from rfl] at h
  injection h with h'
  injection h' with h''
  exact absurd h'' (by decide)

/-- Inverting a successful `Except` bind. -/
theorem bind_eq_ok {α β : Type} {x : Except Err α} {f : α → Except Err β} {b : β}
    (h : (x >>= f) = .ok b) : ∃ a, x = .ok a ∧ f a = .ok b := by
  cases x with
  | ok a => exact ⟨a, rfl, h⟩
  | error e => simp [Bind.bind, Except.bind] at h

/-- C9, counterexample.  The claim says the bare negative-zero forms `-0` and
`-0.0…0` are never emitted as a single numeric token "regardless of what
follows them in the input".  The pattern's lookahead is anchored with `$`, so
when anything follows the form, the lexer does emit it as a numeric token:
`"-0)"` lexes to the token `-0` and `"-0.00 + 1"` to `-0.00`, both classified
as constants. -/
theorem c9_neg_zero_token_when_followed :
    lexPeek "-0)".data = .ok "-0" ∧ isConstTok "-0" = true ∧
    lexPeek "-0.00 + 1".data = .ok "-0.00" ∧ isConstTok "-0.00" = true :=
  ⟨rfl, rfl, rfl, rfl⟩

/-- C9, amended.  The numeric pattern rejects the negative-zero forms `-`,
`-0`, `-.0…0`, `-0.0…0` only when the form spans the entire remaining input
(`$`, i.e. end of string or a single trailing newline); at such a position
the lexer instead returns the operator token `-`. -/
theorem c9_neg_zero_rejected_only_at_end (cs : List Char)
    (h : negZeroReject cs = true) : lexPeek cs = .ok "-" := by
  match cs with
  | [] => simp [negZeroReject] at h
  | c :: rest =>
    have hc : c = '-' := by
      have h' := h
      simp [negZeroReject] at h'
      exact h'.1
    subst hc
    have hpre : List.isPrefixOf "-".data ('-' :: rest) = true := by
      simp [List.isPrefixOf]
    simp [lexPeek, skipWs, isSpaceC, matchNum, h, List.find?, hpre,
      unaryOperators, binaryOperators]

/-- C9, witness for the amended theorem: the whole-input form `-0` is
rejected as a number and lexes to the operator `-`. -/
theorem c9_neg_zero_rejected_only_at_end_witness :
    negZeroReject "-0".data = true ∧ lexPeek "-0".data = .ok "-" :=
  ⟨by decide, c9_neg_zero_rejected_only_at_end "-0".data (by decide)⟩

/-- C2.  The claim says that for every string `s` accepted by `parse`,
re-parsing `str(parse(s))` succeeds and yields a structurally equal tree.
Rendering glues a binary or unary minus directly onto a following digit, so:
`parse "x - 2"` renders as `"(x-2)"`, where `-2` lexes as a signed literal
and re-parsing fails with `BadInput`; and `parse "- 2" = neg(Const 2)`
renders as `"(-2)"`, which re-parses to the different tree `Const(-2)`.
The program's own CLI instructs users never to write a digit directly after
`-`, so the renderer contradicts the code's documented input discipline. -/
theorem c2_render_output_fails_to_reparse (ops : DecOps) :
    parse ops "x - 2" = .ok (.binary (.var "x") "-" (.const 2)) ∧
    render (.binary (.var "x") "-" (.const 2)) = "(x-2)" ∧
    parse ops "(x-2)" = .error .badInput ∧
    parse ops "- 2" = .ok (.unary "-" (.const 2)) ∧
    render (.unary "-" (.const 2)) = "(-2)" ∧
    parse ops "(-2)" = .ok (.const (-2)) ∧
    Expr.const (-2) ≠ Expr.unary "-" (.const 2) :=
  ⟨rfl, by decide, rfl, rfl, by decide, rfl, by decide⟩

/-- C5, counterexample.  The claim says every constructor call simplifies its
children and then the node itself, so a binary node built from two constants
is already constant-folded.  `BinaryExpression.__init__` simplifies only the
children: constructing `2 + 3` yields the unfolded binary node, not
`Const(5)`. -/
theorem c5_constructor_does_not_fold :
    mkBinary defaultOps (.const 2) "+" (.const 3) =
      .ok (.binary (.const 2) "+" (.const 3)) ∧
    isConst (.binary (.const 2) "+" (.const 3)) = false :=
  ⟨rfl, rfl⟩

/-- C5, amended.  Constructors simplify their children only; the node itself
is simplified by the separate `simplify()` call that the parser's
`make_unary_expression`/`make_binary_expression` helpers (and `dx`) apply
after construction.  With that separate call, `2 + 3` does fold to
`Const(5)`. -/
theorem c5_constructors_simplify_children_only (ops : DecOps) :
    (∀ l op r e, mkBinary ops l op r = .ok e →
      ∃ l' r', simplify ops l = .ok l' ∧ simplify ops r = .ok r' ∧
        e = .binary l' op r') ∧
    (∀ op u e, mkUnary ops op u = .ok e →
      ∃ u', simplify ops u = .ok u' ∧ e = .unary op u') ∧
    (∀ l op r, makeBinaryExpression ops l op r = (mkBinary ops l op r >>= simplify ops)) ∧
    (∀ op u, makeUnaryExpression ops op u = (mkUnary ops op u >>= simplify ops)) ∧
    makeBinaryExpression ops (.const 2) "+" (.const 3) = .ok (.const 5) := by
  refine ⟨?_, ?_, fun l op r => rfl, fun op u => rfl, rfl⟩
  · intro l op r e h
    unfold mkBinary at h
    obtain ⟨l', hl, h⟩ := bind_eq_ok h
    obtain ⟨r', hr, h⟩ := bind_eq_ok h
    refine ⟨l', r', hl, hr, ?_⟩
    by_cases hop : op ∈ binaryOperators
    · simp [hop] at h
      exact h.symm
    · simp [hop] at h
  · intro op u e h
    unfold mkUnary at h
    obtain ⟨u', hu, h⟩ := bind_eq_ok h
    refine ⟨u', hu, ?_⟩
    by_cases hop : op ∈ unaryOperators
    · simp [hop] at h
      exact h.symm
    · simp [hop] at h

/-- C5, witness: applying the amended theorem to the constructor call
`BinaryExpression(Const(2), '+', Const(3))`. -/
theorem c5_constructors_simplify_children_only_witness :
    ∃ l' r', simplify defaultOps (.const 2) = .ok l' ∧
      simplify defaultOps (.const 3) = .ok r' ∧
      (Expr.binary (.const 2) "+" (.const 3) : Expr) = .binary l' "+" r' :=
  (c5_constructors_simplify_children_only defaultOps).1 (.const 2) "+" (.const 3)
    (.binary (.const 2) "+" (.const 3)) rfl

/-- C10.  `simplify` on `0 ^ 0` (both operands `Const(0)`) hits the
constant-folding branch (expressions.py lines 120-128) before the `x^0 = 1`
rule (lines 160-162), and `Decimal(0) ** Decimal(0)` signals
`decimal.InvalidOperation` — an error kind outside the spec's taxonomy — so
the result is that error, not `Const(1)`; `parse "0 ^ 0"` propagates it. -/
theorem c10_zero_pow_zero_raises_invalid_operation (ops : DecOps) :
    simplify ops (.binary (.const 0) "^" (.const 0)) = .error .invalidOperation ∧
    parse ops "0 ^ 0" = .error .invalidOperation :=
  ⟨rfl, rfl⟩

/-- C1.  Differentiating a binary `^` node with respect to `wrt`: if the
right operand is the constant `c`, the result is the simplification of
`c * l^(c-1)` (no chain factor for `l`); if the right operand is not a
constant but the left is the constant `c`, the result is the simplification
of `ln(c) * c^r`; if neither operand is a constant, differentiation fails
with `UnsupportedExpression` — in particular `parse("x^y")` differentiated
with respect to `x` fails so. -/
theorem c1_pow_differentiation_cases (ops : DecOps) :
    (∀ l c wrt, dx ops (.binary l "^" (.const c)) wrt =
      (do
        let t ← mkBinary ops l "^" (.const (subQ c 1))
        let m ← mkBinary ops (.const c) "*" t
        simplify ops m)) ∧
    (∀ c r wrt, isConst r = false →
      dx ops (.binary (.const c) "^" r) wrt =
      (do
        let v ← lnD ops c
        let m ← mkBinary ops (.const v) "*" (.binary (.const c) "^" r)
        simplify ops m)) ∧
    (∀ l r wrt, isConst l = false → isConst r = false →
      dx ops (.binary l "^" r) wrt = .error .unsupportedExpression) ∧
    (parse ops "x^y" >>= fun e => dx ops e "x") = .error .unsupportedExpression := by
  refine ⟨?_, ?_, ?_, rfl⟩
  · intro l c wrt
    have h1 : dx ops (.binary l "^" (.const c)) wrt =
        (do
          let e2 ← mkBinary ops l "^" (.binary (.const c) "-" (.const 1))
          let m ← mkBinary ops (.const c) "*" e2
          simplify ops m) := rfl
    rw [h1]
    unfold mkBinary
    cases hsl : simplify ops l with
    | ok l' => rfl
    | error err => rfl
  · intro c r wrt hr
    cases r with
    | const c' => exact absurd hr (by simp [isConst])
    | var s => rfl
    | unary o u => rfl
    | binary a o b => rfl
  · intro l r wrt hl hr
    cases r with
    | const c' => exact absurd hr (by simp [isConst])
    | var s =>
      cases l with
      | const c' => exact absurd hl (by simp [isConst])
      | var t => rfl
      | unary o u => rfl
      | binary a o b => rfl
    | unary o u =>
      cases l with
      | const c' => exact absurd hl (by simp [isConst])
      | var t => rfl
      | unary o' u' => rfl
      | binary a o' b => rfl
    | binary a o b =>
      cases l with
      | const c' => exact absurd hl (by simp [isConst])
      | var t => rfl
      | unary o' u' => rfl
      | binary a' o' b' => rfl

/-- C1, witness: the last two cases at concrete inputs `3 ^ y` and `x ^ y`
(the first case has no hypothesis). -/
theorem c1_pow_differentiation_cases_witness :
    dx defaultOps (.binary (.const 3) "^" (.var "y")) "x" =
      (do
        let v ← lnD defaultOps 3
        let m ← mkBinary defaultOps (.const v) "*" (.binary (.const 3) "^" (.var "y"))
        simplify defaultOps m) ∧
    dx defaultOps (.binary (.var "x") "^" (.var "y")) "x" =
      .error .unsupportedExpression :=
  ⟨(c1_pow_differentiation_cases defaultOps).2.1 3 (.var "y") "x" rfl,
   (c1_pow_differentiation_cases defaultOps).2.2.1 (.var "x") (.var "y") "x" rfl rfl⟩

/-- The class invariant established by `BinaryExpression.__init__`: the
children stored in a binary node are results of `simplify`, hence fixpoints
of it.  Every expression object the program can build satisfies this; trees
violating it cannot be constructed through the API. -/
def ChildrenSimplified (ops : DecOps) : Expr → Prop
  | .binary l _ r => simplify ops l = .ok l ∧ simplify ops r = .ok r
  | _ => True

/-- C6.  `simplify` is idempotent on every expression the program can build
(constructor-invariant `ChildrenSimplified`) on which it does not raise:
the output of a successful `simplify` is itself a `simplify` fixpoint. -/
theorem c6_simplify_idempotent (ops : DecOps) (e e' : Expr)
    (hinv : ChildrenSimplified ops e) (h : simplify ops e = .ok e') :
    simplify ops e' = .ok e' := by
  cases e with
  | const q =>
    rw [show simplify ops (.const q) = .ok (.const q) from rfl] at h
    injection h with h
    subst h
    rfl
  | var n =>
    rw [show simplify ops (.var n) = .ok (.var n) from rfl] at h
    injection h with h
    subst h
    rfl
  | unary op u =>
    rw [show simplify ops (.unary op u) = .ok (.unary op u) from rfl] at h
    injection h with h
    subst h
    rfl
  | binary l op r =>
    obtain ⟨hl, hr⟩ := hinv
    by_cases hcc : ∃ a b, l = .const a ∧ r = .const b
    · obtain ⟨a, b, rfl, rfl⟩ := hcc
      rw [show simplify ops (.binary (.const a) op (.const b)) =
          (foldConst ops a op b).map .const from rfl] at h
      cases hf : foldConst ops a op b with
      | ok q =>
        rw [hf] at h
        injection h with h
        subst h
        rfl
      | error err =>
        rw [hf] at h
        simp [Except.map] at h
    · have hred : simplify ops (.binary l op r) = simplifyRules l op r (simplify ops r) := by
        cases l <;> cases r <;> first
          | rfl
          | exact absurd ⟨_, _, rfl, rfl⟩ hcc
      rw [hred] at h
      unfold simplifyRules at h
      split_ifs at h with h1 h2 h3 h4 h5 h6 h7 h8 h9 h10 h11 h12 h13 h14 <;>
        first
        | (injection h with h; subst h;
           first
           | rfl
           | exact hl
           | exact hr
           | (rw [hred]; unfold simplifyRules;
              simp_all))
        | cases h
        | (rw [hr] at h
           rw [show (Except.ok r : Except Err Expr).map (Expr.unary "-") =
               .ok (.unary "-" r) from rfl] at h
           injection h with h
           subst h
           rfl)

/-- C6, witness: a constructible node with two constant children folds to
`Const(3)`, and simplifying the output again returns it unchanged. -/
theorem c6_simplify_idempotent_witness :
    ChildrenSimplified defaultOps (.binary (.const 1) "+" (.const 2)) ∧
    simplify defaultOps (.binary (.const 1) "+" (.const 2)) = .ok (.const 3) ∧
    simplify defaultOps (.const 3) = .ok (.const 3) :=
  ⟨⟨rfl, rfl⟩, rfl,
   c6_simplify_idempotent defaultOps (.binary (.const 1) "+" (.const 2))
     (.const 3) ⟨rfl, rfl⟩ rfl⟩

/-! ## C7: differentiation of constant-only expressions -/

/-- The expression has no `Var` leaf. -/
def constOnly : Expr → Bool
  | .const _ => true
  | .var _ => false
  | .unary _ u => constOnly u
  | .binary l _ r => constOnly l && constOnly r

/-- The expression has no binary `^` node. -/
def noPow : Expr → Bool
  | .const _ => true
  | .var _ => true
  | .unary _ u => noPow u
  | .binary l op r => (decide (op ≠ "^") && noPow l) && noPow r

theorem ok_bind {α β : Type} (a : α) (f : α → Except Err β) :
    (Except.ok a >>= f) = f a := rfl

theorem mulQ_zero (a : ℚ) : mulQ a 0 = 0 := by simp [mulQ]

theorem zero_mulQ (a : ℚ) : mulQ 0 a = 0 := by simp [mulQ]

theorem zero_divQ (b : ℚ) : divQ 0 b = 0 := by simp [divQ, zero_mulQ]

/-- Inverting a successful binary-constructor call. -/
theorem mkBinary_ok {ops : DecOps} {l r e : Expr} {op : String}
    (h : mkBinary ops l op r = .ok e) :
    ∃ l' r', simplify ops l = .ok l' ∧ simplify ops r = .ok r' ∧
      e = .binary l' op r' := by
  unfold mkBinary at h
  obtain ⟨l', hl, h⟩ := bind_eq_ok h
  obtain ⟨r', hr, h⟩ := bind_eq_ok h
  refine ⟨l', r', hl, hr, ?_⟩
  by_cases hop : op ∈ binaryOperators
  · simp [hop] at h
    exact h.symm
  · simp [hop] at h

/-- A product with the constant 0 on the right always simplifies to
`Const(0)`: by folding when the other operand is constant, by the
`0 * x = 0` rule otherwise. -/
theorem simplify_mul_zero (ops : DecOps) (x : Expr) :
    simplify ops (.binary x "*" (.const 0)) = .ok (.const 0) := by
  cases x with
  | const k =>
    show (foldConst ops k "*" 0).map Expr.const = .ok (.const 0)
    rw [show foldConst ops k "*" 0 = .ok (mulQ k 0) from rfl, mulQ_zero]
    rfl
  | var s => rfl
  | unary o u => rfl
  | binary a o b => rfl

/-- C7, counterexample.  `sin(2)^2` is a constant-only expression (no
variable leaves), yet differentiating it (with the extra `simplify` the CLI
applies) yields `2 * sin(2)`, not `Const(0)`: the power rule emits
`r * l^(r-1)` with no chain factor for `l`, so nothing cancels. -/
theorem c7_constant_pow_does_not_differentiate_to_zero :
    constOnly (.binary (.unary "sin" (.const 2)) "^" (.const 2)) = true ∧
    (dx defaultOps (.binary (.unary "sin" (.const 2)) "^" (.const 2)) "x" >>=
        simplify defaultOps) =
      .ok (.binary (.const 2) "*" (.unary "sin" (.const 2))) ∧
    (Expr.binary (.const 2) "*" (.unary "sin" (.const 2))) ≠ .const 0 :=
  ⟨rfl, rfl, by decide⟩

/-- C7, amended.  For every constant-only expression that contains no binary
`^` node, whenever differentiation succeeds it yields exactly `Constant(0)`.
(The claim's original form fails in two ways: any `^` node makes the power
rule or the `ln(l) * l^r` rule emit a non-zero product, and differentiation
can raise — e.g. `log(0)` builds `1/0` — rather than return a value.) -/
theorem c7_constant_only_differentiates_to_zero (ops : DecOps) (wrt : String) :
    ∀ e d, constOnly e = true → noPow e = true →
      dx ops e wrt = .ok d → d = .const 0 := by
  intro e
  induction e with
  | const q =>
    intro d _ _ h
    injection h with h
    exact h.symm
  | var s =>
    intro d hco _ _
    simp [constOnly] at hco
  | unary op u ih =>
    intro d hco hnp h
    simp only [constOnly] at hco
    simp only [noPow] at hnp
    simp only [dx] at h
    obtain ⟨f, hf, h⟩ := bind_eq_ok h
    obtain ⟨du, hdu, h⟩ := bind_eq_ok h
    have hdu0 : du = .const 0 := ih du hco hnp hdu
    subst hdu0
    obtain ⟨m, hm, h⟩ := bind_eq_ok h
    obtain ⟨f', c', hf', hc', hme⟩ := mkBinary_ok hm
    rw [show simplify ops (.const 0) = .ok (.const 0) from rfl] at hc'
    injection hc' with hc'
    subst hc'
    subst hme
    rw [simplify_mul_zero] at h
    injection h with h
    exact h.symm
  | binary l op r ihl ihr =>
    intro d hco hnp h
    simp only [constOnly, Bool.and_eq_true] at hco
    obtain ⟨hcol, hcor⟩ := hco
    simp only [noPow, Bool.and_eq_true, decide_eq_true_eq] at hnp
    obtain ⟨⟨hne, hnpl⟩, hnpr⟩ := hnp
    by_cases h1 : op = "+"
    · subst h1
      simp only [dx, reduceIte] at h
      obtain ⟨a, ha, h⟩ := bind_eq_ok h
      obtain ⟨b, hb, h⟩ := bind_eq_ok h
      have ha0 : a = .const 0 := ihl a hcol hnpl ha
      have hb0 : b = .const 0 := ihr b hcor hnpr hb
      subst ha0; subst hb0
      obtain ⟨m, hm, h⟩ := bind_eq_ok h
      rw [show mkBinary ops (.const 0) "+" (.const 0) =
          .ok (.binary (.const 0) "+" (.const 0)) from rfl] at hm
      injection hm with hm
      subst hm
      rw [show simplify ops (.binary (.const 0) "+" (.const 0)) =
          .ok (.const 0) from rfl] at h
      injection h with h
      exact h.symm
    · by_cases h2 : op = "-"
      · subst h2
        simp only [dx, reduceIte] at h
        obtain ⟨a, ha, h⟩ := bind_eq_ok h
        obtain ⟨b, hb, h⟩ := bind_eq_ok h
        have ha0 : a = .const 0 := ihl a hcol hnpl ha
        have hb0 : b = .const 0 := ihr b hcor hnpr hb
        subst ha0; subst hb0
        obtain ⟨m, hm, h⟩ := bind_eq_ok h
        rw [show mkBinary ops (.const 0) "-" (.const 0) =
            .ok (.binary (.const 0) "-" (.const 0)) from rfl] at hm
        injection hm with hm
        subst hm
        rw [show simplify ops (.binary (.const 0) "-" (.const 0)) =
            .ok (.const 0) from rfl] at h
        injection h with h
        exact h.symm
      · by_cases h3 : op = "*"
        · subst h3
          simp only [dx, reduceIte] at h
          obtain ⟨b, hb, h⟩ := bind_eq_ok h
          have hb0 : b = .const 0 := ihr b hcor hnpr hb
          subst hb0
          obtain ⟨i1, hi1, h⟩ := bind_eq_ok h
          obtain ⟨l₁, c₁, hl₁, hc₁, hi1e⟩ := mkBinary_ok hi1
          rw [show simplify ops (.const 0) = .ok (.const 0) from rfl] at hc₁
          injection hc₁ with hc₁
          subst hc₁
          subst hi1e
          obtain ⟨a, ha, h⟩ := bind_eq_ok h
          have ha0 : a = .const 0 := ihl a hcol hnpl ha
          subst ha0
          obtain ⟨i2, hi2, h⟩ := bind_eq_ok h
          obtain ⟨r₁, c₂, hr₁, hc₂, hi2e⟩ := mkBinary_ok hi2
          rw [show simplify ops (.const 0) = .ok (.const 0) from rfl] at hc₂
          injection hc₂ with hc₂
          subst hc₂
          subst hi2e
          obtain ⟨m, hm, h⟩ := bind_eq_ok h
          unfold mkBinary at hm
          rw [simplify_mul_zero, ok_bind, simplify_mul_zero, ok_bind] at hm
          simp only [show ("+" ∈ binaryOperators) = True by simp [binaryOperators],
            if_true] at hm
          injection hm with hm
          subst hm
          rw [show simplify ops (.binary (.const 0) "+" (.const 0)) =
              .ok (.const 0) from rfl] at h
          injection h with h
          exact h.symm
        · by_cases h4 : op = "/"
          · subst h4
            simp only [dx, reduceIte] at h
            obtain ⟨a, ha, h⟩ := bind_eq_ok h
            have ha0 : a = .const 0 := ihl a hcol hnpl ha
            subst ha0
            obtain ⟨i1, hi1, h⟩ := bind_eq_ok h
            obtain ⟨r₁, c₁, hr₁, hc₁, hi1e⟩ := mkBinary_ok hi1
            rw [show simplify ops (.const 0) = .ok (.const 0) from rfl] at hc₁
            injection hc₁ with hc₁
            subst hc₁
            subst hi1e
            obtain ⟨b, hb, h⟩ := bind_eq_ok h
            have hb0 : b = .const 0 := ihr b hcor hnpr hb
            subst hb0
            obtain ⟨i2, hi2, h⟩ := bind_eq_ok h
            obtain ⟨l₁, c₂, hl₁, hc₂, hi2e⟩ := mkBinary_ok hi2
            rw [show simplify ops (.const 0) = .ok (.const 0) from rfl] at hc₂
            injection hc₂ with hc₂
            subst hc₂
            subst hi2e
            obtain ⟨n, hn, h⟩ := bind_eq_ok h
            unfold mkBinary at hn
            rw [simplify_mul_zero, ok_bind, simplify_mul_zero, ok_bind] at hn
            simp only [show ("-" ∈ binaryOperators) = True by simp [binaryOperators],
              if_true] at hn
            injection hn with hn
            subst hn
            obtain ⟨dn, hdn, h⟩ := bind_eq_ok h
            obtain ⟨r₂, c₃, hr₂, hc₃, hdne⟩ := mkBinary_ok hdn
            rw [hr₁] at hr₂
            injection hr₂ with hr₂
            subst hr₂
            rw [show simplify ops (.const 2) = .ok (.const 2) from rfl] at hc₃
            injection hc₃ with hc₃
            subst hc₃
            subst hdne
            obtain ⟨m, hm, h⟩ := bind_eq_ok h
            unfold mkBinary at hm
            rw [show simplify ops (.binary (.const 0) "-" (.const 0)) =
                .ok (.const 0) from rfl, ok_bind] at hm
            -- split on the shape of the (simplified) denominator base
            cases r₁ with
            | const k =>
              rw [show simplify ops (.binary (.const k) "^" (.const 2)) =
                  (foldConst ops k "^" 2).map Expr.const from rfl] at hm
              cases hfk : foldConst ops k "^" 2 with
              | error e =>
                rw [hfk] at hm
                simp [Except.map, Bind.bind, Except.bind] at hm
              | ok w =>
                rw [hfk] at hm
                rw [show ((Except.ok w : Except Err ℚ).map Expr.const) =
                    .ok (.const w) from rfl, ok_bind] at hm
                simp only [show ("/" ∈ binaryOperators) = True by
                  simp [binaryOperators], if_true] at hm
                injection hm with hm
                subst hm
                by_cases hw : w = 0
                · subst hw
                  rw [show simplify ops (.binary (.const 0) "/" (.const 0)) =
                      .error .invalidOperation from rfl] at h
                  cases h
                · rw [show simplify ops (.binary (.const 0) "/" (.const w)) =
                      (foldConst ops 0 "/" w).map Expr.const from rfl] at h
                  rw [show foldConst ops 0 "/" w = divD 0 w from rfl] at h
                  unfold divD at h
                  rw [if_neg hw] at h
                  rw [zero_divQ] at h
                  rw [show ((Except.ok (0:ℚ) : Except Err ℚ).map Expr.const) =
                      .ok (.const 0) from rfl] at h
                  injection h with h
                  exact h.symm
            | var s =>
              rw [show simplify ops (.binary (.var s) "^" (.const 2)) =
                  .ok (.binary (.var s) "^" (.const 2)) from rfl, ok_bind] at hm
              simp only [show ("/" ∈ binaryOperators) = True by
                simp [binaryOperators], if_true] at hm
              injection hm with hm
              subst hm
              rw [show simplify ops
                  (.binary (.const 0) "/" (.binary (.var s) "^" (.const 2))) =
                  .ok (.const 0) from rfl] at h
              injection h with h
              exact h.symm
            | unary o u =>
              rw [show simplify ops (.binary (.unary o u) "^" (.const 2)) =
                  .ok (.binary (.unary o u) "^" (.const 2)) from rfl, ok_bind] at hm
              simp only [show ("/" ∈ binaryOperators) = True by
                simp [binaryOperators], if_true] at hm
              injection hm with hm
              subst hm
              rw [show simplify ops
                  (.binary (.const 0) "/" (.binary (.unary o u) "^" (.const 2))) =
                  .ok (.const 0) from rfl] at h
              injection h with h
              exact h.symm
            | binary x o y =>
              rw [show simplify ops (.binary (.binary x o y) "^" (.const 2)) =
                  .ok (.binary (.binary x o y) "^" (.const 2)) from rfl, ok_bind] at hm
              simp only [show ("/" ∈ binaryOperators) = True by
                simp [binaryOperators], if_true] at hm
              injection hm with hm
              subst hm
              rw [show simplify ops
                  (.binary (.const 0) "/" (.binary (.binary x o y) "^" (.const 2))) =
                  .ok (.const 0) from rfl] at h
              injection h with h
              exact h.symm
          · simp only [dx, if_neg hne, if_neg h1, if_neg h2, if_neg h3, if_neg h4] at h
            cases h

/-- C7, witness for the amended theorem: `sin(2)` is constant-only with no
`^` node, and its derivative computes to `Const(0)`. -/
theorem c7_constant_only_differentiates_to_zero_witness :
    constOnly (.unary "sin" (.const 2)) = true ∧
    noPow (.unary "sin" (.const 2)) = true ∧
    (Expr.const 0 : Expr) = .const 0 :=
  ⟨by decide, by decide,
   c7_constant_only_differentiates_to_zero defaultOps "x"
     (.unary "sin" (.const 2)) (.const 0) (by decide) (by decide) rfl⟩

end Diff
